import Mathlib

/-!
Verification of the django-offerman catalog core against its specification.

The Python source is shallowly embedded: Django model rows become Lean
structures, querysets become lists, integer cents become `ℤ`, `Decimal`
quantities become `ℚ` (Decimal arithmetic on the values occurring here is
exact), and fallible operations return `Except`/`Option`.
-/

/-! ### Rounding primitives

`service.py` and `models/product.py` round with `decimal.ROUND_HALF_UP`
(ties away from zero); `adapters/catalog_backend.py` uses Python's built-in
`round`, which on `Decimal`/float arguments rounds ties to even. -/

/-- `decimal.ROUND_HALF_UP`: round to the nearest integer, ties away from
zero (as used via `to_integral_value(rounding=ROUND_HALF_UP)`). -/
def roundHalfUp (q : ℚ) : ℤ :=
  if 0 ≤ q then ⌊q + 1/2⌋ else -⌊-q + 1/2⌋

/-- Python's built-in `round` on an exact decimal value: round to the
nearest integer, ties to the even integer (banker's rounding). -/
def pyRound (q : ℚ) : ℤ :=
  if q - ⌊q⌋ < 1/2 then ⌊q⌋
  else if (1:ℚ)/2 < q - ⌊q⌋ then ⌊q⌋ + 1
  else if ⌊q⌋ % 2 = 0 then ⌊q⌋ else ⌊q⌋ + 1

/-- `Decimal.quantize(Decimal("0.1"))` with the default context rounding
(ROUND_HALF_EVEN), as used by `Product.margin_percent`. -/
def quantize1 (q : ℚ) : ℚ := (pyRound (q * 10) : ℚ) / 10

/-! ### Data model (`models/product.py`, `models/listing.py`,
`models/product_component.py`, `models/collection.py`) -/

/-- Row of `Product` (the fields the catalog algorithms read). -/
structure Product where
  sku : String
  name : String
  base_price_q : ℤ
  is_published : Bool
  is_available : Bool
deriving DecidableEq

/-- Row of `Listing` (a sales channel; `PriceList` is an alias). -/
structure Listing where
  code : String
  is_active : Bool
  valid_from : Option ℤ
  valid_until : Option ℤ
deriving DecidableEq

/-- Row of `ListingItem` (`PriceListItem` alias): a per-channel price
override at a `min_qty` tier, with channel-local visibility flags. -/
structure ListingItem where
  listing_code : String
  product_sku : String
  price_q : ℤ
  min_qty : ℚ
  is_published : Bool
  is_available : Bool
deriving DecidableEq

/-- Row of `ProductComponent`: a directed composition edge
parent-product → component-product carrying a quantity multiplier.
Products are identified by their unique SKU. -/
structure ProductComponent where
  parent : String
  component : String
  qty : ℚ
deriving DecidableEq

/-- Row of `Collection` (the fields `clean`/`save` read). -/
structure CollectionRec where
  pk : ℕ
  slug : String
  parentId : Option ℕ
deriving DecidableEq

/-- Row of `CollectionItem`: product membership in a collection. -/
structure CollectionItem where
  pk : ℕ
  collection : ℕ
  product : String
  is_primary : Bool
deriving DecidableEq

/-- The backing store visible to `CatalogService` (querysets are lists,
`timezone.now().date()` is the explicit `today`). -/
structure Db where
  products : List Product
  listings : List Listing
  listingItems : List ListingItem
  components : List ProductComponent
  collections : List CollectionRec
  collectionItems : List CollectionItem
  today : ℤ

/-- `Listing.is_valid(date)` from `models/listing.py`. -/
def Listing.isValid (l : Listing) (today : ℤ) : Bool :=
  if !l.is_active then false
  else if (match l.valid_from with | some d => decide (today < d) | none => false) then false
  else if (match l.valid_until with | some d => decide (d < today) | none => false) then false
  else true

/-! ### CatalogService (`service.py`) -/

/-- The `CatalogError` codes raised by the service (`exceptions.py`). -/
inductive CatalogErr where
  | skuNotFound (sku : String)
  | notABundle (sku : String)
  | invalidQuantity (sku : String)
deriving DecidableEq

/-- `CatalogService._fetch_product`: `Product.objects.filter(sku=sku).first()`. -/
def fetchProduct (db : Db) (sku : String) : Option Product :=
  (db.products.filter (fun p => p.sku = sku)).head?

/-- The candidate `ListingItem`s of `_get_price_from_list`:
`filter(listing=pl, product=product, min_qty__lte=qty, is_published=True,
is_available=True)`. -/
def tierCandidates (db : Db) (pl : Listing) (product : Product) (qty : ℚ) :
    List ListingItem :=
  db.listingItems.filter (fun i =>
    i.listing_code = pl.code && i.product_sku = product.sku &&
    decide (i.min_qty ≤ qty) && i.is_published && i.is_available)

/-- `.order_by("-min_qty").first()` over the candidates: the item with the
greatest `min_qty` (earliest row wins a tie; the unique constraint on
(listing, product, min_qty) rules ties out in valid stores). -/
def bestTier : List ListingItem → Option ListingItem
  | [] => none
  | i :: t =>
    match bestTier t with
    | none => some i
    | some j => some (if i.min_qty < j.min_qty then j else i)

/-- `CatalogService._get_price_from_list`. -/
def getPriceFromList (db : Db) (product : Product) (code : String) (qty : ℚ) :
    Option ℤ :=
  match (db.listings.filter (fun l => l.code = code)).head? with
  | none => none
  | some pl =>
    if !pl.isValid db.today then none
    else (bestTier (tierCandidates db pl product qty)).map (fun i => i.price_q)

/-- `CatalogService.price`: total price in cents. -/
def price (db : Db) (sku : String) (qty : ℚ) (channel : Option String)
    (priceList : Option String) : Except CatalogErr ℤ :=
  if qty ≤ 0 then .error (.invalidQuantity sku)
  else
    match fetchProduct db sku with
    | none => .error (.skuNotFound sku)
    | some product =>
      let effective := match priceList with | some c => some c | none => channel
      match effective with
      | some code =>
        match getPriceFromList db product code qty with
        | some u => .ok (roundHalfUp ((u : ℚ) * qty))
        | none => .ok (roundHalfUp ((product.base_price_q : ℚ) * qty))
      | none => .ok (roundHalfUp ((product.base_price_q : ℚ) * qty))

/-- `Product.is_bundle`: `self.components.exists()`. -/
def isBundle (db : Db) (p : Product) : Bool :=
  db.components.any (fun e => e.parent = p.sku)

/-- `product.components` with `select_related("component")`: the direct
(depth-1) composition edges of a product. -/
def directComponents (db : Db) (p : Product) : List ProductComponent :=
  db.components.filter (fun e => e.parent = p.sku)

/-- Name of the component product (`comp.component.name`; the FK guarantees
existence, a broken reference yields the empty name). -/
def componentName (db : Db) (sku : String) : String :=
  match fetchProduct db sku with
  | some p => p.name
  | none => ""

/-- One record of `CatalogService.expand`'s result list. -/
structure BundleRecord where
  sku : String
  name : String
  qty : ℚ
deriving DecidableEq

/-- `CatalogService.expand`: one-level bundle expansion. -/
def expand (db : Db) (sku : String) (qty : ℚ) :
    Except CatalogErr (List BundleRecord) :=
  match fetchProduct db sku with
  | none => .error (.skuNotFound sku)
  | some product =>
    if !isBundle db product then .error (.notABundle sku)
    else .ok ((directComponents db product).map
      (fun e => ⟨e.component, componentName db e.component, e.qty * qty⟩))

/-- The `SkuValidation` dataclass (`protocols/catalog.py`). -/
structure SkuValidation where
  valid : Bool
  sku : String
  name : Option String
  is_published : Bool
  is_available : Bool
  error_code : Option String
  message : Option String
deriving DecidableEq

def msgNotPublished : String := "Product is not published in catalog"

def msgNotAvailable : String := "Product is not available for purchase"

def codeNotFound : String := "not_found"

/-- `CatalogService._get_validation_message`. -/
def validationMessage (p : Product) : Option String :=
  if !p.is_published then some msgNotPublished
  else if !p.is_available then some msgNotAvailable
  else none

/-- `CatalogService.validate`: structured result, never an exception. -/
def validate (db : Db) (sku : String) : SkuValidation :=
  match fetchProduct db sku with
  | none =>
    ⟨false, sku, none, true, true, some codeNotFound,
      some ("SKU " ++ sku ++ " not found")⟩
  | some p =>
    ⟨true, sku, some p.name, p.is_published, p.is_available, none,
      validationMessage p⟩

/-- Leading-characters match (helper for case-insensitive `icontains`). -/
def charsLead : List Char → List Char → Bool
  | [], _ => true
  | _ :: _, [] => false
  | a :: n, b :: h => a = b && charsLead n h

/-- Substring match over character lists. -/
def charsHas (n : List Char) : List Char → Bool
  | [] => n.isEmpty
  | b :: t => charsLead n (b :: t) || charsHas n t

/-- Django `icontains`: case-insensitive substring containment. -/
def icontains (needle hay : String) : Bool :=
  charsHas needle.toLower.toList hay.toLower.toList

/-- Slug of a collection row, by primary key. -/
def collectionSlug (cols : List CollectionRec) (pk : ℕ) : Option String :=
  ((cols.filter (fun c => c.pk = pk)).head?).map (fun c => c.slug)

/-- `CatalogService.search`: filtered list, never an exception (the taggit
keyword filter is outside the embedded store and omitted; the claims do not
touch it). -/
def search (db : Db) (query : Option String) (collection : Option String)
    (onlyPublished onlyAvailable : Bool) (limit : ℕ) : List Product :=
  let qs := db.products
  let qs := if onlyPublished then qs.filter (fun p => p.is_published) else qs
  let qs := if onlyAvailable then qs.filter (fun p => p.is_available) else qs
  let qs :=
    match query with
    | some q => qs.filter (fun (p : Product) => icontains q p.sku || icontains q p.name)
    | none => qs
  let qs :=
    match collection with
    | some slug =>
      qs.filter (fun (p : Product) => db.collectionItems.any (fun ci =>
        ci.product = p.sku && (collectionSlug db.collections ci.collection
          |>.elim false (fun s => s = slug))))
    | none => qs
  qs.take limit

/-! ### Margin (`models/product.py`, `adapters/catalog_backend.py`) -/

/-- `Product.margin_percent`: the CostBackend result is passed explicitly
(`None` = backend absent or cost unknown).  Mirrors the falsy test
`if not cost_q or not self.base_price_q: return None`. -/
def marginPercent (p : Product) (cost : Option ℤ) : Option ℚ :=
  let costFalsy := match cost with | none => true | some c => c = 0
  if costFalsy || p.base_price_q = 0 then none
  else
    match cost with
    | some c =>
      some (quantize1 (((p.base_price_q : ℚ) - (c : ℚ)) * 100 / (p.base_price_q : ℚ)))
    | none => none

/-- `OffermanCatalogBackend.get_price`'s unit-price-from-total derivation:
`round(total_price_q / qty) if qty > 0 else total_price_q`. -/
def backendUnitPrice (total : ℤ) (qty : ℚ) : ℤ :=
  if 0 < qty then pyRound ((total : ℚ) / qty) else total

/-! ### Round-half-even, declaratively (from the claim wording) -/

/-- Modelled from the spec wording for the rounding of
`round(total / qty)`: `r` is the integer nearest to `q`, a tie between the
two neighbouring integers going to the even one. -/
def NearestTiesEven (q : ℚ) (r : ℤ) : Prop :=
  |q - (r : ℚ)| ≤ 1/2 ∧ (|q - (r : ℚ)| = 1/2 → Even r)

/-- Modelled from the claim wording "round-half-up semantics": `r` is the
integer nearest to `q`, a tie going away from zero — the claimed (but not
implemented) behaviour of the unit-price derivation. -/
def specRoundHalfUp (q : ℚ) : ℤ := roundHalfUp q

lemma pyRound_spec (q : ℚ) : NearestTiesEven q (pyRound q) := by
  have hfl : (⌊q⌋ : ℚ) ≤ q := Int.floor_le q
  have hfu : q < (⌊q⌋ : ℚ) + 1 := Int.lt_floor_add_one q
  unfold pyRound NearestTiesEven
  split
  · rename_i h1
    constructor
    · rw [abs_of_nonneg (by linarith)]
      linarith
    · intro habs
      rw [abs_of_nonneg (by linarith)] at habs
      exact absurd habs (by linarith)
  · rename_i h1
    push_neg at h1
    split
    · rename_i h2
      constructor
      · push_cast
        rw [abs_of_nonpos (by linarith)]
        linarith
      · intro habs
        push_cast at habs
        rw [abs_of_nonpos (by linarith)] at habs
        exact absurd habs (by linarith)
    · rename_i h2
      push_neg at h2
      have htie : q - (⌊q⌋ : ℚ) = 1/2 := le_antisymm h2 h1
      split
      · rename_i h3
        constructor
        · rw [abs_of_nonneg (by linarith)]
          linarith
        · intro _
          exact Int.even_iff.mpr h3
      · rename_i h3
        constructor
        · push_cast
          rw [abs_of_nonpos (by linarith)]
          linarith
        · intro _
          rw [Int.even_add_one]
          exact fun hev => h3 (Int.even_iff.mp hev)

/-- Claim C2 — counterexample.  The backend's unit-price derivation is
Python's `round`, i.e. banker's rounding: at total=1001 cents and qty=2 it
returns 500, while the claimed round-half-up semantics demands 501. -/
theorem C2_counterexample :
    backendUnitPrice 1001 2 = 500 ∧ specRoundHalfUp ((1001 : ℚ) / 2) = 501 := by
  constructor
  · norm_num [backendUnitPrice, pyRound]
  · norm_num [specRoundHalfUp, roundHalfUp]

/-- Claim C2 (amended): for every total and qty, the backend's
unit-price-from-total derivation returns the integer nearest to
`total / qty` with ties going to the even integer (round-half-even — never
truncation) when `qty > 0`, and returns `total` itself otherwise. -/
theorem C2_backend_unit_price (total : ℤ) (qty : ℚ) :
    (0 < qty → NearestTiesEven ((total : ℚ) / qty) (backendUnitPrice total qty)) ∧
    (¬ 0 < qty → backendUnitPrice total qty = total) := by
  constructor
  · intro hq
    unfold backendUnitPrice
    rw [if_pos hq]
    exact pyRound_spec _
  · intro hq
    unfold backendUnitPrice
    rw [if_neg hq]

/-- Witness for C2: at total=1001, qty=3 the hypothesis `0 < qty` holds and
the derivation yields the nearest integer (334). -/
theorem C2_backend_unit_price_witness :
    NearestTiesEven ((1001 : ℚ) / 3) (backendUnitPrice 1001 3) ∧
    backendUnitPrice 1001 3 = 334 :=
  ⟨(C2_backend_unit_price 1001 3).1 (by norm_num),
    by norm_num [backendUnitPrice, pyRound]⟩

/-! ### Margin claims (C8, C10) -/

/-- Claim C8 — counterexample.  With `base_price_q = 500` and the cost
backend returning a present cost of exactly 0 cents, `margin_percent` is
`None`, while the claimed formula `(base - cost) * 100 / base` rounded to
one decimal gives 100.0. -/
theorem C8_counterexample :
    marginPercent ⟨"SKU1", "P1", 500, true, true⟩ (some 0) = none ∧
    quantize1 (((500 : ℚ) - 0) * 100 / 500) = 100 := by
  constructor
  · rfl
  · norm_num [quantize1, pyRound]

/-- Claim C8 (amended): `margin_percent` is `None` whenever
`base_price_q = 0`, regardless of the cost backend's answer (no division by
zero ever occurs); when `base_price_q > 0` and a nonzero cost is present it
is the exact margin ratio `(base - cost) * 100 / base` rounded to one
decimal place (a multiple of 1/10 within 1/20 of the ratio). -/
theorem C8_margin_percent (p : Product) (cost : Option ℤ) :
    (p.base_price_q = 0 → marginPercent p cost = none) ∧
    (∀ c : ℤ, cost = some c → c ≠ 0 → 0 < p.base_price_q →
      ∃ m : ℚ, marginPercent p cost = some m ∧ (∃ k : ℤ, m = (k : ℚ) / 10) ∧
        |((p.base_price_q : ℚ) - (c : ℚ)) * 100 / (p.base_price_q : ℚ) - m| ≤ 1/20) := by
  constructor
  · intro h0
    unfold marginPercent
    simp [h0]
  · intro c hc hcz hbpos
    subst hc
    have hb0 : p.base_price_q ≠ 0 := ne_of_gt hbpos
    refine ⟨quantize1 (((p.base_price_q : ℚ) - (c : ℚ)) * 100 / (p.base_price_q : ℚ)), ?_, ?_, ?_⟩
    · unfold marginPercent
      simp [hcz, hb0]
    · exact ⟨pyRound (((p.base_price_q : ℚ) - (c : ℚ)) * 100 / (p.base_price_q : ℚ) * 10), rfl⟩
    · set x : ℚ := ((p.base_price_q : ℚ) - (c : ℚ)) * 100 / (p.base_price_q : ℚ) with hx
      have h := (pyRound_spec (x * 10)).1
      unfold quantize1
      rw [show x - (pyRound (x * 10) : ℚ) / 10 = (x * 10 - (pyRound (x * 10) : ℚ)) / 10 by ring]
      rw [abs_div, abs_of_pos (by norm_num : (0:ℚ) < 10)]
      linarith [abs_nonneg (x * 10 - (pyRound (x * 10) : ℚ)), h]

/-- Witness for C8: base price 1000, cost 300 → margin 70.0%. -/
theorem C8_margin_percent_witness :
    ∃ m : ℚ, marginPercent ⟨"SKU1", "P1", 1000, true, true⟩ (some 300) = some m ∧
      (∃ k : ℤ, m = (k : ℚ) / 10) ∧
      |((1000 : ℚ) - 300) * 100 / 1000 - m| ≤ 1/20 :=
  (C8_margin_percent ⟨"SKU1", "P1", 1000, true, true⟩ (some 300)).2 300 rfl
    (by norm_num) (by norm_num)

/-- Claim C10: a present cost of exactly 0 cents (a falsy value) also makes
`margin_percent` `None`, just like an absent cost — a zero-cost product
never reports a 100% margin. -/
theorem C10_zero_cost_margin (p : Product) :
    marginPercent p (some 0) = none ∧ marginPercent p none = none := by
  constructor
  · unfold marginPercent
    simp
  · rfl

/-! ### Bundle expansion (C4, C9) and lookup-vs-derive asymmetry (C7) -/

lemma isBundle_iff_direct (db : Db) (p : Product) :
    isBundle db p = true ↔ directComponents db p ≠ [] := by
  constructor
  · intro h hnil
    rcases List.any_eq_true.mp h with ⟨e, he, hpar⟩
    have : e ∈ directComponents db p := List.mem_filter.mpr ⟨he, hpar⟩
    rw [hnil] at this
    exact absurd this (List.not_mem_nil e)
  · intro h
    rcases List.exists_mem_of_ne_nil _ h with ⟨e, he⟩
    rcases List.mem_filter.mp he with ⟨hmem, hpar⟩
    exact List.any_eq_true.mpr ⟨e, hmem, hpar⟩

lemma expand_eq_of_bundle (db : Db) (sku : String) (qty : ℚ) (p : Product)
    (hp : fetchProduct db sku = some p) (hb : directComponents db p ≠ []) :
    expand db sku qty = .ok ((directComponents db p).map
      (fun e => ⟨e.component, componentName db e.component, e.qty * qty⟩)) := by
  have hb2 : isBundle db p = true := (isBundle_iff_direct db p).mpr hb
  simp [expand, hp, hb2]

/-- Claim C4: `expand(sku, qty)` fails with SkuNotFoundError on an unknown
SKU, fails with NotABundleError when the product has zero component edges,
and otherwise returns exactly one record per direct (depth-1) component,
with the edge quantity multiplied by the requested quantity — it never
recurses into nested bundles (the result is literally the map over the
depth-1 edge list). -/
theorem C4_expand_one_level (db : Db) (sku : String) (qty : ℚ) :
    (fetchProduct db sku = none → expand db sku qty = .error (.skuNotFound sku)) ∧
    (∀ p, fetchProduct db sku = some p →
      (directComponents db p = [] → expand db sku qty = .error (.notABundle sku)) ∧
      (directComponents db p ≠ [] →
        expand db sku qty = .ok ((directComponents db p).map
          (fun e => ⟨e.component, componentName db e.component, e.qty * qty⟩)) ∧
        ∀ l, expand db sku qty = .ok l → l.length = (directComponents db p).length)) := by
  refine ⟨?_, ?_⟩
  · intro h
    unfold expand
    rw [h]
  · intro p hp
    refine ⟨?_, ?_⟩
    · intro hnil
      have hb2 : isBundle db p = false := by
        by_contra hb
        rw [Bool.not_eq_false] at hb
        exact (isBundle_iff_direct db p).mp hb hnil
      simp [expand, hp, hb2]
    · intro hne
      have hok := expand_eq_of_bundle db sku qty p hp hne
      refine ⟨hok, ?_⟩
      intro l hl
      rw [hok] at hl
      injection hl with hl
      rw [← hl, List.length_map]

def exCroissant : Product := ⟨"CROISSANT", "Croissant", 500, true, true⟩

def exCoffee : Product := ⟨"COFFEE", "Coffee", 600, true, true⟩

def exCombo : Product := ⟨"COMBO", "Combo", 1100, true, true⟩

/-- A store holding the documented end-to-end bundle example: COMBO has
components CROISSANT (qty 1) and COFFEE (qty 1). -/
def exBundleDb : Db :=
  ⟨[exCombo, exCroissant, exCoffee], [], [],
   [⟨"COMBO", "CROISSANT", 1⟩, ⟨"COMBO", "COFFEE", 1⟩], [], [], 0⟩

def exComboSku : String := "COMBO"

/-- Witness for C4: the documented scenario — `expand("COMBO", 2)` yields
CROISSANT×2 and COFFEE×2, one record per direct component. -/
theorem C4_expand_one_level_witness :
    expand exBundleDb exComboSku 2 =
      .ok [⟨"CROISSANT", "Croissant", 2⟩, ⟨"COFFEE", "Coffee", 2⟩] := by
  have h := ((C4_expand_one_level exBundleDb exComboSku 2).2 exCombo
    (by simp [fetchProduct, exBundleDb, exComboSku, exCombo, exCroissant, exCoffee])).2
    (by simp [directComponents, exBundleDb, exComboSku, exCombo])
  rw [h.1]
  norm_num [directComponents, exBundleDb, exComboSku, exCombo, componentName,
    fetchProduct, exCroissant, exCoffee, List.find?]
  exact ⟨rfl, rfl⟩

/-- Claim C9: `expand` performs no quantity validation — for an existing
bundle product, a zero or negative qty is accepted and scales every
component by that non-positive multiplier, whereas `price` rejects the
same qty with an invalid-quantity error. -/
theorem C9_expand_accepts_nonpositive_qty (db : Db) (sku : String) (qty : ℚ)
    (p : Product) (hp : fetchProduct db sku = some p)
    (hb : directComponents db p ≠ []) (hq : qty ≤ 0) :
    expand db sku qty = .ok ((directComponents db p).map
      (fun e => ⟨e.component, componentName db e.component, e.qty * qty⟩)) ∧
    (∀ ch pl, price db sku qty ch pl = .error (.invalidQuantity sku)) := by
  refine ⟨expand_eq_of_bundle db sku qty p hp hb, ?_⟩
  intro ch pl
  unfold price
  rw [if_pos hq]

/-- Witness for C9: `expand("COMBO", -2)` succeeds with components scaled
by -2 while `price("COMBO", -2)` is an invalid-quantity error. -/
theorem C9_expand_accepts_nonpositive_qty_witness :
    expand exBundleDb exComboSku (-2) =
      .ok ((directComponents exBundleDb exCombo).map
        (fun e => ⟨e.component, componentName exBundleDb e.component, e.qty * (-2)⟩)) ∧
    (∀ ch pl, price exBundleDb exComboSku (-2) ch pl =
      .error (.invalidQuantity exComboSku)) :=
  C9_expand_accepts_nonpositive_qty exBundleDb exComboSku (-2) exCombo
    (by simp [fetchProduct, exBundleDb, exComboSku, exCombo, exCroissant, exCoffee])
    (by simp [directComponents, exBundleDb, exComboSku, exCombo])
    (by norm_num)

/-- Claim C7: `validate` and `search` never raise for not-found conditions
(they are total functions into plain results here): `valid=false` exactly
when the SKU is entirely unknown; an existing product is `valid=true`, with
an explanatory message when unpublished or unavailable; a query matching no
product makes `search` return the empty list; in contrast `price` (for any
positive qty) and `expand` return SkuNotFoundError for the unknown SKU. -/
theorem C7_validate_never_raises (db : Db) (sku : String) :
    ((validate db sku).valid = false ↔ fetchProduct db sku = none) ∧
    (fetchProduct db sku = none →
      (∀ qty : ℚ, 0 < qty → ∀ ch pl, price db sku qty ch pl = .error (.skuNotFound sku)) ∧
      (∀ qty : ℚ, expand db sku qty = .error (.skuNotFound sku)) ∧
      (validate db sku).error_code = some codeNotFound) ∧
    (∀ p, fetchProduct db sku = some p →
      (validate db sku).valid = true ∧
      (validate db sku).name = some p.name ∧
      (p.is_published = false → (validate db sku).message = some msgNotPublished) ∧
      (p.is_published = true → p.is_available = false →
        (validate db sku).message = some msgNotAvailable)) ∧
    (∀ q lim, (∀ p2 ∈ db.products, icontains q p2.sku = false ∧ icontains q p2.name = false) →
      search db (some q) none true true lim = []) := by
  refine ⟨?_, ?_, ?_, ?_⟩
  · cases h : fetchProduct db sku with
    | none => simp [validate, h]
    | some p => simp [validate, h]
  · intro h
    refine ⟨?_, ?_, ?_⟩
    · intro qty hq ch pl
      unfold price
      rw [if_neg (not_le.mpr hq), h]
    · intro qty
      unfold expand
      rw [h]
    · simp [validate, h]
  · intro p hp
    refine ⟨by simp [validate, hp], by simp [validate, hp], ?_, ?_⟩
    · intro hpub
      simp [validate, hp, validationMessage, hpub]
    · intro hpub hav
      simp [validate, hp, validationMessage, hpub, hav]
  · intro q lim hnone
    unfold search
    have hfil : ∀ l : List Product, (∀ x ∈ l, x ∈ db.products) →
        l.filter (fun (p : Product) => icontains q p.sku || icontains q p.name) = [] := by
      intro l hsub
      rw [List.filter_eq_nil_iff]
      intro a ha
      rcases hnone a (hsub a ha) with ⟨h1, h2⟩
      simp [h1, h2]
    simp only
    rw [hfil _ ?_]
    · simp
    · intro x hx
      exact List.mem_of_mem_filter (List.mem_of_mem_filter hx)

/-- Witness for C7: in a store whose only product is COMBO, the unknown SKU
NOPE validates to `valid=false` while `price`/`expand` raise, and COMBO
itself validates to `valid=true`. -/
theorem C7_validate_never_raises_witness :
    (validate exBundleDb "NOPE").valid = false ∧
    price exBundleDb "NOPE" 1 none none = .error (.skuNotFound "NOPE") ∧
    expand exBundleDb "NOPE" 1 = .error (.skuNotFound "NOPE") ∧
    (validate exBundleDb exComboSku).valid = true := by
  have hnone : fetchProduct exBundleDb "NOPE" = none := by
    simp [fetchProduct, exBundleDb, exCombo, exCroissant, exCoffee]
  have hsome : fetchProduct exBundleDb exComboSku = some exCombo := by
    simp [fetchProduct, exBundleDb, exComboSku, exCombo, exCroissant, exCoffee]
  have h := C7_validate_never_raises exBundleDb "NOPE"
  have h2 := C7_validate_never_raises exBundleDb exComboSku
  refine ⟨h.1.mpr hnone, ?_, ?_, ?_⟩
  · exact (h.2.1 hnone).1 1 (by norm_num) none none
  · exact (h.2.1 hnone).2.1 1
  · exact (h2.2.2.1 exCombo hsome).1

/-! ### Channel pricing resolution (C1) -/

lemma bestTier_eq_none (l : List ListingItem) : bestTier l = none ↔ l = [] := by
  cases l with
  | nil => simp [bestTier]
  | cons i t =>
    simp only [bestTier]
    cases h : bestTier t <;> simp

lemma bestTier_mem : ∀ (l : List ListingItem) (i : ListingItem),
    bestTier l = some i → i ∈ l := by
  intro l
  induction l with
  | nil => intro i h; simp [bestTier] at h
  | cons a t ih =>
    intro i h
    simp only [bestTier] at h
    cases ht : bestTier t with
    | none =>
      rw [ht] at h
      injection h with h
      rw [← h]
      exact List.mem_cons_self a t
    | some j =>
      rw [ht] at h
      injection h with h
      by_cases hlt : a.min_qty < j.min_qty
      · rw [if_pos hlt] at h
        rw [← h]
        exact List.mem_cons_of_mem a (ih j ht)
      · rw [if_neg hlt] at h
        rw [← h]
        exact List.mem_cons_self a t

lemma bestTier_max : ∀ (l : List ListingItem) (i : ListingItem),
    bestTier l = some i → ∀ k ∈ l, k.min_qty ≤ i.min_qty := by
  intro l
  induction l with
  | nil => intro i h; simp [bestTier] at h
  | cons a t ih =>
    intro i h k hk
    simp only [bestTier] at h
    cases ht : bestTier t with
    | none =>
      have : t = [] := (bestTier_eq_none t).mp ht
      subst this
      rw [ht] at h
      injection h with h
      rcases List.mem_cons.mp hk with hk | hk
      · rw [hk, ← h]
      · exact absurd hk (List.not_mem_nil k)
    | some j =>
      rw [ht] at h
      injection h with h
      rcases List.mem_cons.mp hk with hk | hk
      · subst hk
        by_cases hlt : k.min_qty < j.min_qty
        · rw [if_pos hlt] at h
          rw [← h]
          exact le_of_lt hlt
        · rw [if_neg hlt] at h
          rw [← h]
      · have hkj := ih j ht k hk
        by_cases hlt : a.min_qty < j.min_qty
        · rw [if_pos hlt] at h
          rw [← h]
          exact hkj
        · rw [if_neg hlt] at h
          rw [← h]
          exact le_trans hkj (not_lt.mp hlt)

lemma price_channel_unfold (db : Db) (sku : String) (qty : ℚ) (channel : String)
    (p : Product) (hq : 0 < qty) (hp : fetchProduct db sku = some p) :
    price db sku qty (some channel) none =
      (match getPriceFromList db p channel qty with
       | some u => .ok (roundHalfUp ((u : ℚ) * qty))
       | none => .ok (roundHalfUp ((p.base_price_q : ℚ) * qty))) := by
  unfold price
  rw [if_neg (not_le.mpr hq), hp]

/-- Claim C1: for an existing product and strictly positive qty, the
channel price resolves the unit price to the `price_q` of the candidate
`ListingItem` with the largest `min_qty ≤ qty` among the channel-published
and channel-available items of the Listing when that Listing exists and is
valid today; otherwise (missing Listing, invalid Listing, or no candidate
tier) it silently falls back to the product's `base_price_q`.  The total is
the unit price times qty, rounded half-up. -/
theorem C1_price_tier_resolution (db : Db) (sku : String) (qty : ℚ)
    (channel : String) (p : Product) (hq : 0 < qty)
    (hp : fetchProduct db sku = some p) :
    ((db.listings.filter (fun l => l.code = channel)).head? = none →
      price db sku qty (some channel) none =
        .ok (roundHalfUp ((p.base_price_q : ℚ) * qty))) ∧
    (∀ pl, (db.listings.filter (fun l => l.code = channel)).head? = some pl →
      (pl.isValid db.today = false →
        price db sku qty (some channel) none =
          .ok (roundHalfUp ((p.base_price_q : ℚ) * qty))) ∧
      (pl.isValid db.today = true →
        (tierCandidates db pl p qty = [] →
          price db sku qty (some channel) none =
            .ok (roundHalfUp ((p.base_price_q : ℚ) * qty))) ∧
        (∀ i, bestTier (tierCandidates db pl p qty) = some i →
          i ∈ tierCandidates db pl p qty ∧ i.min_qty ≤ qty ∧
          i.is_published = true ∧ i.is_available = true ∧
          i.product_sku = p.sku ∧ i.listing_code = pl.code ∧
          (∀ j ∈ tierCandidates db pl p qty, j.min_qty ≤ i.min_qty) ∧
          price db sku qty (some channel) none =
            .ok (roundHalfUp ((i.price_q : ℚ) * qty))))) := by
  rw [price_channel_unfold db sku qty channel p hq hp]
  refine ⟨?_, ?_⟩
  · intro hnone
    simp [getPriceFromList, hnone]
  · intro pl hpl
    refine ⟨?_, ?_⟩
    · intro hinv
      simp [getPriceFromList, hpl, hinv]
    · intro hval
      refine ⟨?_, ?_⟩
      · intro hnil
        have : bestTier (tierCandidates db pl p qty) = none :=
          (bestTier_eq_none _).mpr hnil
        simp [getPriceFromList, hpl, hval, this]
      · intro i hbest
        have hi := bestTier_mem _ _ hbest
        rcases List.mem_filter.mp hi with ⟨_, hcond⟩
        simp only [Bool.and_eq_true, decide_eq_true_eq] at hcond
        obtain ⟨⟨⟨⟨hlst, hsku⟩, hmin⟩, hpub⟩, hav⟩ := hcond
        refine ⟨hi, hmin, hpub, hav, hsku, hlst, ?_, ?_⟩
        · exact bestTier_max _ _ hbest
        · simp [getPriceFromList, hpl, hval, hbest]

def exTierP : Product := ⟨"P", "Tiered product", 100, true, true⟩

def exCh : Listing := ⟨"ifood", true, none, none⟩

def exTier1 : ListingItem := ⟨"ifood", "P", 500, 1, true, true⟩

def exTier10 : ListingItem := ⟨"ifood", "P", 400, 10, true, true⟩

def exTier50 : ListingItem := ⟨"ifood", "P", 350, 50, true, true⟩

/-- The documented tier example: tiers at min_qty 1→500, 10→400, 50→350. -/
def exTierDb : Db :=
  ⟨[exTierP], [exCh], [exTier1, exTier10, exTier50], [], [], [], 0⟩

def exTierSku : String := "P"

def exChCode : String := "ifood"

/-- Witness for C1: the documented tier table resolves qty=5 to the 500
tier, qty=10 to the 400 tier and qty=100 to the 350 tier (totals 2500,
4000, 35000 cents). -/
theorem C1_price_tier_resolution_witness :
    price exTierDb exTierSku 5 (some exChCode) none = .ok 2500 ∧
    price exTierDb exTierSku 10 (some exChCode) none = .ok 4000 ∧
    price exTierDb exTierSku 100 (some exChCode) none = .ok 35000 := by
  have hp : fetchProduct exTierDb exTierSku = some exTierP := by
    simp [fetchProduct, exTierDb, exTierSku, exTierP]
  have hpl : (exTierDb.listings.filter (fun l => l.code = exChCode)).head? = some exCh := by
    simp [exTierDb, exChCode, exCh]
  have hval : exCh.isValid exTierDb.today = true := by
    simp [Listing.isValid, exCh, exTierDb]
  have hcand5 : tierCandidates exTierDb exCh exTierP 5 = [exTier1] := by
    norm_num [tierCandidates, exTierDb, exCh, exTierP, exTier1, exTier10, exTier50,
      List.filter]
  have hcand10 : tierCandidates exTierDb exCh exTierP 10 = [exTier1, exTier10] := by
    norm_num [tierCandidates, exTierDb, exCh, exTierP, exTier1, exTier10, exTier50,
      List.filter]
  have hcand100 : tierCandidates exTierDb exCh exTierP 100 =
      [exTier1, exTier10, exTier50] := by
    norm_num [tierCandidates, exTierDb, exCh, exTierP, exTier1, exTier10, exTier50,
      List.filter]
  have h5 := ((((C1_price_tier_resolution exTierDb exTierSku 5 exChCode exTierP
    (by norm_num) hp).2 exCh hpl).2 hval).2 exTier1
    (by rw [hcand5]; norm_num [bestTier]))
  have h10 := ((((C1_price_tier_resolution exTierDb exTierSku 10 exChCode exTierP
    (by norm_num) hp).2 exCh hpl).2 hval).2 exTier10
    (by rw [hcand10]; norm_num [bestTier, exTier1, exTier10]))
  have h100 := ((((C1_price_tier_resolution exTierDb exTierSku 100 exChCode exTierP
    (by norm_num) hp).2 exCh hpl).2 hval).2 exTier50
    (by rw [hcand100]; norm_num [bestTier, exTier1, exTier10, exTier50]))
  refine ⟨?_, ?_, ?_⟩
  · rw [h5.2.2.2.2.2.2.2]
    norm_num [exTier1, roundHalfUp]
  · rw [h10.2.2.2.2.2.2.2]
    norm_num [exTier10, roundHalfUp]
  · rw [h100.2.2.2.2.2.2.2]
    norm_num [exTier50, roundHalfUp]

/-! ### Primary collection membership (C5) -/

/-- `CollectionItem.save`'s pre-save update: clear `is_primary` on every
other item of the same product
(`filter(product=self.product, is_primary=True).exclude(pk=self.pk)
.update(is_primary=False)`). -/
def clearOtherPrimaries (items : List CollectionItem) (self : CollectionItem) :
    List CollectionItem :=
  items.map (fun it =>
    if it.product = self.product ∧ it.is_primary = true ∧ it.pk ≠ self.pk
    then ⟨it.pk, it.collection, it.product, false⟩ else it)

/-- `CollectionItem.save`: clear competing primaries when saving a primary
row, then `super().save()` — insert or update by primary key. -/
def saveCollectionItem (items : List CollectionItem) (self : CollectionItem) :
    List CollectionItem :=
  let base := if self.is_primary then clearOtherPrimaries items self else items
  if base.any (fun it => it.pk = self.pk)
  then base.map (fun it => if it.pk = self.pk then self else it)
  else base ++ [self]

/-- The CollectionItems marking `product = sku` as primary. -/
def primariesFor (items : List CollectionItem) (sku : String) :
    List CollectionItem :=
  items.filter (fun it => it.product = sku && it.is_primary)

lemma clearOther_any_pk (items : List CollectionItem) (self : CollectionItem) :
    (clearOtherPrimaries items self).any (fun it => it.pk = self.pk) =
      items.any (fun it => it.pk = self.pk) := by
  induction items with
  | nil => rfl
  | cons a t ih =>
    simp only [clearOtherPrimaries, List.map_cons, List.any_cons] at *
    rw [ih]
    by_cases h : a.product = self.product ∧ a.is_primary = true ∧ a.pk ≠ self.pk
    · rw [if_pos h]
    · rw [if_neg h]

lemma clearOther_filter_of_no_pk (items : List CollectionItem)
    (self : CollectionItem) (h : ∀ it ∈ items, it.pk ≠ self.pk) :
    primariesFor (clearOtherPrimaries items self) self.product = [] := by
  induction items with
  | nil => rfl
  | cons a t ih =>
    have ha := h a (List.mem_cons_self a t)
    have ht : ∀ it ∈ t, it.pk ≠ self.pk :=
      fun it hit => h it (List.mem_cons_of_mem a hit)
    simp only [primariesFor, clearOtherPrimaries, List.map_cons, List.filter_cons] at *
    by_cases hcond : a.product = self.product ∧ a.is_primary = true ∧ a.pk ≠ self.pk
    · rw [if_pos hcond]
      simpa using ih ht
    · rw [if_neg hcond]
      have hpred : (a.product = self.product && a.is_primary) = false := by
        by_contra hb
        rw [Bool.not_eq_false, Bool.and_eq_true, decide_eq_true_eq] at hb
        exact hcond ⟨hb.1, hb.2, ha⟩
      rw [hpred]
      simpa using ih ht

lemma clearOther_of_ne_pk (items : List CollectionItem) (self : CollectionItem)
    (h : ∀ it ∈ items, it.pk ≠ self.pk) :
    (clearOtherPrimaries items self).map
      (fun it => if it.pk = self.pk then self else it) =
      clearOtherPrimaries items self := by
  conv_rhs => rw [← List.map_id (clearOtherPrimaries items self)]
  apply List.map_congr_left
  intro a ha
  have hpk : a.pk ≠ self.pk := by
    rcases List.mem_map.mp ha with ⟨b, hb, hba⟩
    have hab : a.pk = b.pk := by
      rw [← hba]
      by_cases hc : b.product = self.product ∧ b.is_primary = true ∧ b.pk ≠ self.pk
      · rw [if_pos hc]
      · rw [if_neg hc]
    rw [hab]
    exact h b hb
  rw [if_neg hpk]
  rfl

lemma saveItem_replace_filter (items : List CollectionItem)
    (self : CollectionItem) (hprim : self.is_primary = true) :
    ∀ (hnd : (items.map (fun it => it.pk)).Nodup)
      (hmem : self.pk ∈ items.map (fun it => it.pk)),
    primariesFor ((clearOtherPrimaries items self).map
      (fun it => if it.pk = self.pk then self else it)) self.product = [self] := by
  induction items with
  | nil =>
    intro _ hmem
    exact absurd hmem (List.not_mem_nil _)
  | cons a t ih =>
    intro hnd hmem
    rw [List.map_cons, List.nodup_cons] at hnd
    by_cases hpk : a.pk = self.pk
    · have hcond : ¬(a.product = self.product ∧ a.is_primary = true ∧ a.pk ≠ self.pk) := by
        rintro ⟨_, _, hne⟩
        exact hne hpk
      have hno : ∀ it ∈ t, it.pk ≠ self.pk := by
        intro it hit heq
        exact hnd.1 (by rw [hpk, ← heq]; exact List.mem_map_of_mem _ hit)
      simp only [clearOtherPrimaries, primariesFor, List.map_cons, List.filter_cons] at *
      rw [if_neg hcond, if_pos hpk]
      have hselfpred : (self.product = self.product && self.is_primary) = true := by
        simp [hprim]
      rw [hselfpred]
      simp only [if_pos]
      have hrest := clearOther_of_ne_pk t self hno
      simp only [clearOtherPrimaries] at hrest
      rw [hrest]
      have hnil := clearOther_filter_of_no_pk t self hno
      simp only [clearOtherPrimaries, primariesFor] at hnil
      rw [hnil]
    · have hmem2 : self.pk ∈ t.map (fun it => it.pk) := by
        rcases List.mem_map.mp hmem with ⟨b, hb, hbeq⟩
        rcases List.mem_cons.mp hb with hb | hb
        · exact absurd (by rw [← hb]; exact hbeq) hpk
        · rw [← hbeq]
          exact List.mem_map_of_mem _ hb
      have htail := ih hnd.2 hmem2
      simp only [clearOtherPrimaries, primariesFor, List.map_cons, List.filter_cons] at *
      by_cases hcond : a.product = self.product ∧ a.is_primary = true ∧ a.pk ≠ self.pk
      · rw [if_pos hcond, if_neg hpk]
        have hcleared : ((⟨a.pk, a.collection, a.product, false⟩ : CollectionItem).product = self.product &&
            (⟨a.pk, a.collection, a.product, false⟩ : CollectionItem).is_primary) = false := by
          simp
        rw [hcleared]
        exact htail
      · rw [if_neg hcond, if_neg hpk]
        have hpred : (a.product = self.product && a.is_primary) = false := by
          by_contra hb
          rw [Bool.not_eq_false, Bool.and_eq_true, decide_eq_true_eq] at hb
          exact hcond ⟨hb.1, hb.2, hpk⟩
        rw [hpred]
        exact htail

lemma filter_map_length_le (h : CollectionItem → CollectionItem)
    (q : CollectionItem → Bool) :
    ∀ l : List CollectionItem, (∀ x ∈ l, q (h x) = false ∨ h x = x) →
    ((l.map h).filter q).length ≤ (l.filter q).length := by
  intro l
  induction l with
  | nil => simp
  | cons a t ih =>
    intro hp
    have ha := hp a (List.mem_cons_self a t)
    have ht := fun x hx => hp x (List.mem_cons_of_mem a hx)
    simp only [List.map_cons, List.filter_cons]
    rcases ha with ha | ha
    · rw [ha]
      by_cases hqa : q a = true
      · rw [if_pos hqa]
        simp only [List.length_cons]
        exact Nat.le_succ_of_le (ih ht)
      · rw [if_neg hqa]
        exact ih ht
    · rw [ha]
      by_cases hqa : q a = true
      · rw [if_pos hqa, if_pos hqa]
        simp only [List.length_cons]
        exact Nat.succ_le_succ (ih ht)
      · rw [if_neg hqa, if_neg hqa]
        exact ih ht

lemma save_primary_exact (items : List CollectionItem) (self : CollectionItem)
    (hnd : (items.map (fun it => it.pk)).Nodup) (hprim : self.is_primary = true) :
    primariesFor (saveCollectionItem items self) self.product = [self] := by
  unfold saveCollectionItem
  simp only [hprim, if_pos]
  by_cases hany : (clearOtherPrimaries items self).any (fun it => it.pk = self.pk) = true
  · rw [if_pos hany]
    rw [clearOther_any_pk] at hany
    rcases List.any_eq_true.mp hany with ⟨b, hb, hbpk⟩
    rw [decide_eq_true_eq] at hbpk
    exact saveItem_replace_filter items self hprim hnd
      (by rw [← hbpk]; exact List.mem_map_of_mem _ hb)
  · rw [if_neg hany]
    rw [Bool.not_eq_true, clearOther_any_pk, List.any_eq_false] at hany
    have hno : ∀ it ∈ items, it.pk ≠ self.pk := by
      intro it hit heq
      exact hany it hit (by simp [heq])
    unfold primariesFor
    rw [List.filter_append]
    have h1 := clearOther_filter_of_no_pk items self hno
    unfold primariesFor at h1
    rw [h1]
    simp [hprim]

/-- Claim C5: saving a CollectionItem with `is_primary=true` clears
`is_primary` on every other item of the same product (across all
collections), so that afterwards exactly one CollectionItem for that
product is primary — the saved one; and a save never breaks the global
"at most one primary per product" invariant. -/
theorem C5_single_primary_per_product (items : List CollectionItem)
    (self : CollectionItem) (hnd : (items.map (fun it => it.pk)).Nodup) :
    (self.is_primary = true →
      primariesFor (saveCollectionItem items self) self.product = [self]) ∧
    (∀ sku, (primariesFor items sku).length ≤ 1 →
      (primariesFor (saveCollectionItem items self) sku).length ≤ 1) := by
  constructor
  · intro hprim
    exact save_primary_exact items self hnd hprim
  · intro sku hle
    by_cases hsku : sku = self.product
    · subst hsku
      by_cases hprim : self.is_primary = true
      · rw [save_primary_exact items self hnd hprim]
        simp
      · have hprim2 : self.is_primary = false := Bool.not_eq_true _ |>.mp hprim
        unfold saveCollectionItem
        simp only [hprim2, Bool.false_eq_true, if_false]
        by_cases hany : items.any (fun it => it.pk = self.pk) = true
        · rw [if_pos hany]
          refine le_trans (filter_map_length_le _ _ items ?_) hle
          intro x _
          by_cases hx : x.pk = self.pk
          · left
            rw [if_pos hx]
            simp [hprim2]
          · right
            rw [if_neg hx]
        · rw [if_neg hany]
          unfold primariesFor
          rw [List.filter_append]
          have hself : (List.filter (fun it => it.product = self.product && it.is_primary) [self]).length = 0 := by
            simp [hprim2]
          rw [List.length_append, hself, Nat.add_zero]
          exact hle
    · have hne : self.product ≠ sku := fun h => hsku h.symm
      unfold saveCollectionItem
      have hbase : ∀ base : List CollectionItem,
          (primariesFor base sku).length ≤ (primariesFor items sku).length →
          (primariesFor (if base.any (fun it => it.pk = self.pk) = true
            then base.map (fun it => if it.pk = self.pk then self else it)
            else base ++ [self]) sku).length ≤ (primariesFor items sku).length := by
        intro base hb
        by_cases hany : base.any (fun it => it.pk = self.pk) = true
        · rw [if_pos hany]
          refine le_trans (filter_map_length_le _ _ base ?_) hb
          intro x _
          by_cases hx : x.pk = self.pk
          · left
            rw [if_pos hx]
            simp [hne]
          · right
            rw [if_neg hx]
        · rw [if_neg hany]
          unfold primariesFor
          rw [List.filter_append]
          have hself : (List.filter (fun it => it.product = sku && it.is_primary) [self]).length = 0 := by
            simp [hne]
          rw [List.length_append, hself, Nat.add_zero]
          exact hb
      by_cases hprim : self.is_primary = true
      · simp only [hprim, if_pos]
        refine le_trans (hbase (clearOtherPrimaries items self) ?_) hle
        unfold clearOtherPrimaries
        refine filter_map_length_le _ _ items ?_
        intro x _
        by_cases hc : x.product = self.product ∧ x.is_primary = true ∧ x.pk ≠ self.pk
        · left
          rw [if_pos hc]
          simp
        · right
          rw [if_neg hc]
      · have hprim2 : self.is_primary = false := Bool.not_eq_true _ |>.mp hprim
        simp only [hprim2, Bool.false_eq_true, if_false]
        exact le_trans (hbase items le_rfl) hle

def exItemA : CollectionItem := ⟨1, 10, "P", true⟩

def exItemB : CollectionItem := ⟨2, 20, "P", true⟩

/-- Witness for C5: product P is primary in collection 10; saving a new
primary membership in collection 20 leaves exactly that one primary row. -/
theorem C5_single_primary_per_product_witness :
    primariesFor (saveCollectionItem [exItemA] exItemB) exItemB.product = [exItemB] :=
  (C5_single_primary_per_product [exItemA] exItemB (by simp)).1 rfl

/-! ### Bundle composition graph (C3)

`ProductComponent.clean` walks the component graph depth-first from the new
component with the parent pre-marked visited.  The `visited` set is shared
across branches, so ANY revisit — a true cycle or an acyclic diamond — is
reported as a circular reference. -/

/-- `ProductComponent.objects.filter(parent_id=pid)`. -/
def childEdges (edges : List ProductComponent) (pid : String) :
    List ProductComponent :=
  edges.filter (fun e => e.parent = pid)

/-- The recursive `check_descendants` of
`ProductComponent._check_depth_and_cycles`, with the pending recursive
calls held in an explicit pre-order work list.  Any entry whose product id
is already visited returns True (circular), which propagates to the top in
the Python original.  The fuel only serves termination: each processed
entry is the initial component or was spawned from an edge whose parent was
newly visited, so at most `edges.length + 1` entries are ever processed and
the fuel `edges.length + 2` used in `checkDepthAndCycles` never runs out. -/
def dfsWalk (edges : List ProductComponent) :
    ℕ → List (String × ℕ) → List String → ℕ → Bool × ℕ
  | 0, _, _, maxD => (true, maxD)
  | _ + 1, [], _, maxD => (false, maxD)
  | fuel + 1, (pid, d) :: rest, visited, maxD =>
    if pid ∈ visited then (true, maxD)
    else dfsWalk edges fuel
      (((childEdges edges pid).map (fun e => (e.component, d + 1))) ++ rest)
      (pid :: visited) (max maxD d)

/-- `_check_depth_and_cycles`: `visited = {parent_id}`, `max_depth = 1`,
then `check_descendants(component_id, 2)`; returns (is_circular, depth). -/
def checkDepthAndCycles (edges : List ProductComponent)
    (parentId componentId : String) : Bool × ℕ :=
  dfsWalk edges (edges.length + 2) [(componentId, 2)] [parentId] 1

/-- The `ValidationError`s of `ProductComponent.full_clean`: the qty field
validator (`MinValueValidator(0.001)`), then `clean` (self reference,
circular reference, max depth), then the (parent, component) unique
constraint. -/
inductive ComponentErr where
  | invalidQty
  | selfReference
  | circularReference
  | maxDepthExceeded
  | duplicateEdge
deriving DecidableEq

/-- `ProductComponent.full_clean` on a new edge against the stored graph. -/
def componentFullClean (maxDepth : ℕ) (edges : List ProductComponent)
    (e : ProductComponent) : Option ComponentErr :=
  if e.qty < (1 : ℚ)/1000 then some .invalidQty
  else if e.parent = e.component then some .selfReference
  else if (checkDepthAndCycles edges e.parent e.component).1
  then some .circularReference
  else if maxDepth < (checkDepthAndCycles edges e.parent e.component).2
  then some .maxDepthExceeded
  else if edges.any (fun x => x.parent = e.parent && x.component = e.component)
  then some .duplicateEdge
  else none

/-- `ProductComponent.save`: `full_clean()` then insert — all-or-nothing,
an error writes nothing. -/
def addComponent (maxDepth : ℕ) (edges : List ProductComponent)
    (e : ProductComponent) : Except ComponentErr (List ProductComponent) :=
  match componentFullClean maxDepth edges e with
  | some err => .error err
  | none => .ok (edges ++ [e])

/-- Reachability along stored composition edges (reflexive-transitive),
the declarative notion of "is a transitive component of". -/
inductive Reaches (edges : List ProductComponent) : String → String → Prop
  | refl (a : String) : Reaches edges a a
  | step {a c : String} (e : ProductComponent) (he : e ∈ edges)
      (hp : e.parent = a) (h : Reaches edges e.component c) : Reaches edges a c

/-- A composition chain of `n` edges from `a` down to `b`. -/
inductive ChainLen (edges : List ProductComponent) : String → String → ℕ → Prop
  | refl (a : String) : ChainLen edges a a 0
  | step {a c : String} {n : ℕ} (e : ProductComponent) (he : e ∈ edges)
      (hp : e.parent = a) (h : ChainLen edges e.component c n) :
      ChainLen edges a c (n + 1)

lemma dfsWalk_true_of_reaches (edges : List ProductComponent) :
    ∀ (fuel : ℕ) (work : List (String × ℕ)) (visited : List String) (maxD : ℕ),
    (∃ pd ∈ work, ∃ v ∈ visited, Reaches edges pd.1 v) →
    (dfsWalk edges fuel work visited maxD).1 = true := by
  intro fuel
  induction fuel with
  | zero => intro work visited maxD _; rfl
  | succ n ih =>
    intro work visited maxD h
    rcases h with ⟨pd, hpd, v, hv, hr⟩
    cases work with
    | nil => exact absurd hpd (List.not_mem_nil _)
    | cons wd rest =>
      obtain ⟨pid, d⟩ := wd
      simp only [dfsWalk]
      by_cases hvis : pid ∈ visited
      · rw [if_pos hvis]
      · rw [if_neg hvis]
        apply ih
        rcases List.mem_cons.mp hpd with hpd | hpd
        · subst hpd
          cases hr with
          | refl => exact absurd hv hvis
          | step e he hp hr2 =>
            refine ⟨(e.component, d + 1), ?_, v, List.mem_cons_of_mem _ hv, hr2⟩
            apply List.mem_append_left
            exact List.mem_map_of_mem _ (List.mem_filter.mpr ⟨he, by simp [hp]⟩)
        · exact ⟨pd, List.mem_append_right _ hpd, v, List.mem_cons_of_mem _ hv, hr⟩

lemma not_reaches_of_check_ok (edges : List ProductComponent)
    (parentId componentId : String)
    (h : (checkDepthAndCycles edges parentId componentId).1 = false) :
    ¬ Reaches edges componentId parentId := by
  intro hr
  have htrue := dfsWalk_true_of_reaches edges (edges.length + 2)
    [(componentId, 2)] [parentId] 1
    ⟨(componentId, 2), List.mem_cons_self _ _,
      parentId, List.mem_cons_self _ _, hr⟩
  unfold checkDepthAndCycles at h
  rw [htrue] at h
  exact Bool.true_eq_false.mp h

/-- Claim C3 (amended): `add_component` succeeds only with a strictly
positive qty, a non-self edge, a component whose stored reachable subgraph
does not contain the parent (so the new edge closes no cycle), and a DFS
depth — starting at 1 for the direct edge — within `BUNDLE_MAX_DEPTH`; on
success the edge is appended, on failure nothing is written (the error
return carries no state).  Acyclicity is necessary but NOT sufficient: the
shared visited set also rejects acyclic diamonds (see the
counterexample). -/
theorem C3_add_component_success (maxDepth : ℕ) (edges : List ProductComponent)
    (e : ProductComponent) (res : List ProductComponent)
    (h : addComponent maxDepth edges e = .ok res) :
    res = edges ++ [e] ∧
    (1 : ℚ)/1000 ≤ e.qty ∧
    e.parent ≠ e.component ∧
    ¬ Reaches edges e.component e.parent ∧
    (checkDepthAndCycles edges e.parent e.component).2 ≤ maxDepth := by
  unfold addComponent at h
  cases hc : componentFullClean maxDepth edges e with
  | some err => rw [hc] at h; exact absurd h (by simp)
  | none =>
    rw [hc] at h
    injection h with h
    unfold componentFullClean at hc
    by_cases h1 : e.qty < (1 : ℚ)/1000
    · rw [if_pos h1] at hc
      exact absurd hc (by simp)
    rw [if_neg h1] at hc
    by_cases h2 : e.parent = e.component
    · rw [if_pos h2] at hc
      exact absurd hc (by simp)
    rw [if_neg h2] at hc
    by_cases h3 : (checkDepthAndCycles edges e.parent e.component).1 = true
    · rw [if_pos h3] at hc
      exact absurd hc (by simp)
    rw [if_neg h3] at hc
    by_cases h4 : maxDepth < (checkDepthAndCycles edges e.parent e.component).2
    · rw [if_pos h4] at hc
      exact absurd hc (by simp)
    exact ⟨h.symm, not_lt.mp h1, h2,
      not_reaches_of_check_ok edges e.parent e.component
        (Bool.not_eq_true _ |>.mp h3), not_lt.mp h4⟩

def exEdgeXB : ProductComponent := ⟨"X", "B", 1⟩

def exEdgeXC : ProductComponent := ⟨"X", "C", 1⟩

def exEdgeBC : ProductComponent := ⟨"B", "C", 1⟩

def exEdgePX : ProductComponent := ⟨"P", "X", 1⟩

/-- An acyclic diamond: X→B, X→C and B→C (C is reachable from X along two
routes). -/
def exDiamondEdges : List ProductComponent := [exEdgeXB, exEdgeXC, exEdgeBC]

/-- The diamond graph together with the refused edge P→X. -/
def exDiamondAll : List ProductComponent := exDiamondEdges ++ [exEdgePX]

/-- A vertex set closed under the edge relation (helper for refuting
reachability on concrete graphs). -/
def closedUnder (edges : List ProductComponent) (s : List String) : Bool :=
  edges.all (fun e => !(decide (e.parent ∈ s)) || decide (e.component ∈ s))

lemma reaches_stay_closed (edges : List ProductComponent) (s : List String)
    (hcl : closedUnder edges s = true) :
    ∀ a b, Reaches edges a b → a ∈ s → b ∈ s := by
  intro a b hr
  induction hr with
  | refl c => exact id
  | step e he hp h ih =>
    intro haS
    apply ih
    have hedge := List.all_eq_true.mp hcl e he
    rw [hp] at hedge
    rcases Bool.or_eq_true _ _ |>.mp hedge with hedge | hedge
    · rw [Bool.not_eq_true', decide_eq_false_iff_not] at hedge
      exact absurd haS hedge
    · exact decide_eq_true_eq.mp hedge

lemma not_reaches_of_closed (edges : List ProductComponent) (s : List String)
    (hcl : closedUnder edges s = true) (a b : String)
    (ha : a ∈ s) (hb : b ∉ s) : ¬ Reaches edges a b :=
  fun hr => hb (reaches_stay_closed edges s hcl a b hr ha)

lemma chainLen_le_rank (edges : List ProductComponent) (rank : String → ℕ)
    (hr : edges.all (fun e => decide (rank e.component < rank e.parent)) = true) :
    ∀ a b n, ChainLen edges a b n → n ≤ rank a := by
  intro a b n h
  induction h with
  | refl => exact Nat.zero_le _
  | step e he hp h ih =>
    have hlt : rank e.component < rank e.parent := by
      have := List.all_eq_true.mp hr e he
      simpa using this
    rw [← hp]
    omega

/-- A rank function witnessing that every chain of the diamond-plus-new-edge
graph has at most 3 edges. -/
def exDiamondRank (s : String) : ℕ :=
  if s = "P" then 3 else if s = "X" then 2 else if s = "B" then 1 else 0

/-- Claim C3 — counterexample.  Adding P→X on top of the acyclic diamond
{X→B, X→C, B→C} is rejected as a circular reference, although the
resulting graph is acyclic (no edge's component reaches its parent) and
every composition chain has length ≤ 5 = BUNDLE_MAX_DEPTH: the claimed
"succeeds iff acyclic and within depth" is false. -/
theorem C3_counterexample :
    addComponent 5 exDiamondEdges exEdgePX = .error .circularReference ∧
    (∀ e ∈ exDiamondAll, ¬ Reaches exDiamondAll e.component e.parent) ∧
    (∀ a b n, ChainLen exDiamondAll a b n → n ≤ 5) := by
  refine ⟨?_, ?_, ?_⟩
  · have hq : ¬((1 : ℚ) < 1000⁻¹) := by norm_num
    simp [addComponent, componentFullClean, checkDepthAndCycles, dfsWalk,
      childEdges, exDiamondEdges, exEdgeXB, exEdgeXC, exEdgeBC, exEdgePX,
      List.filter, hq]
  · intro e he
    have hmem : e = exEdgeXB ∨ e = exEdgeXC ∨ e = exEdgeBC ∨ e = exEdgePX := by
      simpa [exDiamondAll, exDiamondEdges] using he
    rcases hmem with rfl | rfl | rfl | rfl
    · exact not_reaches_of_closed exDiamondAll ["B", "C"] (by decide)
        _ _ (by decide) (by decide)
    · exact not_reaches_of_closed exDiamondAll ["C"] (by decide)
        _ _ (by decide) (by decide)
    · exact not_reaches_of_closed exDiamondAll ["C"] (by decide)
        _ _ (by decide) (by decide)
    · exact not_reaches_of_closed exDiamondAll ["X", "B", "C"] (by decide)
        _ _ (by decide) (by decide)
  · intro a b n h
    have hrank := chainLen_le_rank exDiamondAll exDiamondRank (by decide) a b n h
    have hbound : exDiamondRank a ≤ 3 := by
      unfold exDiamondRank
      split_ifs <;> omega
    omega

def exEdgeBD : ProductComponent := ⟨"B", "D", 1⟩

/-- Witness for C3 (amended): adding B→D to the diamond succeeds, and the
theorem yields the appended state, qty bound, no self-edge, unreachability
of B from D, and the depth bound. -/
theorem C3_add_component_success_witness :
    exDiamondEdges ++ [exEdgeBD] = exDiamondEdges ++ [exEdgeBD] ∧
    (1 : ℚ)/1000 ≤ exEdgeBD.qty ∧
    exEdgeBD.parent ≠ exEdgeBD.component ∧
    ¬ Reaches exDiamondEdges exEdgeBD.component exEdgeBD.parent ∧
    (checkDepthAndCycles exDiamondEdges exEdgeBD.parent exEdgeBD.component).2 ≤ 5 :=
  C3_add_component_success 5 exDiamondEdges exEdgeBD (exDiamondEdges ++ [exEdgeBD])
    (by
      have hq : ¬((1 : ℚ) < 1000⁻¹) := by norm_num
      simp [addComponent, componentFullClean, checkDepthAndCycles, dfsWalk,
        childEdges, exDiamondEdges, exEdgeXB, exEdgeXC, exEdgeBC, exEdgeBD,
        List.filter, hq])

/-! ### Collection hierarchy (C6) -/

/-- Lookup of a collection row by primary key
(`Collection.objects.get(pk=...)` through the `parent` FK). -/
def findCol (s : List CollectionRec) (pk : ℕ) : Option CollectionRec :=
  (s.filter (fun c => c.pk = pk)).head?

/-- The two `ValidationError`s of `Collection.clean`. -/
inductive CollectionErr where
  | circularReference
  | maxDepthExceeded
deriving DecidableEq

/-- The while-loop of `Collection.clean`: walk `parent` links upward,
failing on a revisit, and return the final `depth` counter.  Fuel only
serves termination: the loop adds each walked pk to `visited` and every
walked pk names a stored row, so at most `s.length + 1` iterations happen
and the fuel `s.length + 2` used in `collectionClean` never runs out.  (A
dangling parent id cannot occur under referential integrity; the model
ends the walk there.) -/
def walkUp (s : List CollectionRec) :
    ℕ → List ℕ → ℕ → Option ℕ → Except CollectionErr ℕ
  | _, _, depth, none => .ok depth
  | 0, _, _, some _ => .error .circularReference
  | fuel + 1, visited, depth, some pk =>
    if pk ∈ visited then .error .circularReference
    else
      match findCol s pk with
      | none => .ok depth
      | some c => walkUp s fuel (pk :: visited) (depth + 1) c.parentId

/-- `Collection.clean`: nothing to check without a parent; otherwise
`visited = {self.pk}`, `depth = 1`, walk up, then the depth bound. -/
def collectionClean (maxDepth : ℕ) (s : List CollectionRec)
    (c : CollectionRec) : Option CollectionErr :=
  match c.parentId with
  | none => none
  | some _ =>
    match walkUp s (s.length + 2) [c.pk] 1 c.parentId with
    | .error err => some err
    | .ok depth => if maxDepth < depth then some .maxDepthExceeded else none

/-- `set_parent`: assign the parent, then `save()` = `full_clean()` plus
write-through (insert or update by pk); a validation error writes
nothing. -/
def setParent (maxDepth : ℕ) (s : List CollectionRec) (c : CollectionRec)
    (parent : Option ℕ) : Except CollectionErr (List CollectionRec) :=
  match collectionClean maxDepth s ⟨c.pk, c.slug, parent⟩ with
  | some err => .error err
  | none =>
    .ok (if s.any (fun x => x.pk = c.pk)
      then s.map (fun x => if x.pk = c.pk then ⟨c.pk, c.slug, parent⟩ else x)
      else s ++ [⟨c.pk, c.slug, parent⟩])

/-- Walking up stored parent links from `pk` visits exactly the pks `l`
(`pk` first) and ends at a root (a row with no parent). -/
inductive UpPath (s : List CollectionRec) : ℕ → List ℕ → Prop
  | root {pk : ℕ} (c : CollectionRec) (hf : findCol s pk = some c)
      (hp : c.parentId = none) : UpPath s pk [pk]
  | step {pk q : ℕ} {l : List ℕ} (c : CollectionRec)
      (hf : findCol s pk = some c) (hp : c.parentId = some q)
      (h : UpPath s q l) : UpPath s pk (pk :: l)

/-- Walking up stored parent links from `pk` passes through the pks `l`
(exclusive of the target) and arrives at `t`. -/
inductive UpSeg (s : List CollectionRec) : ℕ → List ℕ → ℕ → Prop
  | refl (pk : ℕ) : UpSeg s pk [] pk
  | step {pk q t : ℕ} {l : List ℕ} (c : CollectionRec)
      (hf : findCol s pk = some c) (hp : c.parentId = some q)
      (h : UpSeg s q l t) : UpSeg s pk (pk :: l) t

lemma walkUp_circular (s : List CollectionRec) (l : List ℕ) (start t : ℕ)
    (hseg : UpSeg s start l t) :
    t ∉ l →
    ∀ fuel visited depth, t ∈ visited → (∀ x ∈ l, x ∉ visited) →
    l.Nodup → l.length < fuel →
    walkUp s fuel visited depth (some start) = .error .circularReference := by
  induction hseg with
  | refl pk =>
    intro _ fuel visited depth htv _ _ hfuel
    cases fuel with
    | zero => omega
    | succ n =>
      simp only [walkUp]
      rw [if_pos htv]
  | step c hf hp hseg2 ih =>
    rename_i pk q t2 l2
    intro hnotin fuel visited depth htv hdisj hnd hfuel
    cases fuel with
    | zero => simp at hfuel
    | succ n =>
      simp only [walkUp]
      rw [if_neg (hdisj pk (List.mem_cons_self _ _)), hf]
      show walkUp s n (pk :: visited) (depth + 1) c.parentId = _
      rw [hp]
      refine ih (fun hm => hnotin (List.mem_cons_of_mem _ hm)) n (pk :: visited)
        (depth + 1) (List.mem_cons_of_mem _ htv) ?_
        (List.nodup_cons.mp hnd).2 ?_
      · intro x hx
        rw [List.mem_cons]
        rintro (rfl | hxv)
        · exact (List.nodup_cons.mp hnd).1 hx
        · exact hdisj x (List.mem_cons_of_mem _ hx) hxv
      · have := hfuel
        simp only [List.length_cons] at this
        omega

lemma walkUp_complete (s : List CollectionRec) (l : List ℕ) (start : ℕ)
    (hpath : UpPath s start l) :
    ∀ fuel visited depth, (∀ x ∈ l, x ∉ visited) → l.Nodup →
    l.length < fuel →
    walkUp s fuel visited depth (some start) = .ok (depth + l.length) := by
  induction hpath with
  | root c hf hp =>
    rename_i pk
    intro fuel visited depth hdisj _ hfuel
    cases fuel with
    | zero => simp at hfuel
    | succ n =>
      simp only [walkUp]
      rw [if_neg (hdisj pk (List.mem_cons_self _ _)), hf]
      show walkUp s n (pk :: visited) (depth + 1) c.parentId = _
      rw [hp]
      simp [walkUp]
  | step c hf hp hpath2 ih =>
    rename_i pk q l2
    intro fuel visited depth hdisj hnd hfuel
    cases fuel with
    | zero => simp at hfuel
    | succ n =>
      simp only [walkUp]
      rw [if_neg (hdisj pk (List.mem_cons_self _ _)), hf]
      show walkUp s n (pk :: visited) (depth + 1) c.parentId = _
      rw [hp]
      have hrec := ih n (pk :: visited) (depth + 1) ?_ (List.nodup_cons.mp hnd).2 ?_
      · rw [hrec]
        simp only [List.length_cons]
        congr 1
        omega
      · intro x hx
        rw [List.mem_cons]
        rintro (rfl | hxv)
        · exact (List.nodup_cons.mp hnd).1 hx
        · exact hdisj x (List.mem_cons_of_mem _ hx) hxv
      · have := hfuel
        simp only [List.length_cons] at this
        omega

lemma findCol_pk_mem (s : List CollectionRec) (pk : ℕ) (c : CollectionRec)
    (hf : findCol s pk = some c) : pk ∈ s.map (fun x => x.pk) := by
  unfold findCol at hf
  cases hl : s.filter (fun c => c.pk = pk) with
  | nil => rw [hl] at hf; exact absurd hf (by simp)
  | cons a t =>
    rw [hl] at hf
    injection hf with hf
    have ha : a ∈ s.filter (fun c => c.pk = pk) := by
      rw [hl]
      exact List.mem_cons_self a t
    rcases List.mem_filter.mp ha with ⟨hmem, hpk⟩
    rw [decide_eq_true_eq] at hpk
    rw [← hpk]
    exact List.mem_map_of_mem _ hmem

lemma upSeg_mem_store (s : List CollectionRec) (start : ℕ) (l : List ℕ)
    (t : ℕ) (hseg : UpSeg s start l t) :
    ∀ x ∈ l, x ∈ s.map (fun c => c.pk) := by
  induction hseg with
  | refl pk => intro x hx; exact absurd hx (List.not_mem_nil x)
  | step c hf hp hseg2 ih =>
    intro x hx
    rcases List.mem_cons.mp hx with rfl | hx
    · exact findCol_pk_mem s x c hf
    · exact ih x hx

lemma upPath_mem_store (s : List CollectionRec) (start : ℕ) (l : List ℕ)
    (hpath : UpPath s start l) :
    ∀ x ∈ l, x ∈ s.map (fun c => c.pk) := by
  induction hpath with
  | root c hf hp =>
    intro x hx
    rcases List.mem_cons.mp hx with rfl | hx
    · exact findCol_pk_mem s x c hf
    · exact absurd hx (List.not_mem_nil x)
  | step c hf hp hpath2 ih =>
    intro x hx
    rcases List.mem_cons.mp hx with rfl | hx
    · exact findCol_pk_mem s x c hf
    · exact ih x hx

lemma nodup_sub_length_le (l m : List ℕ) (hnd : l.Nodup)
    (hsub : ∀ x ∈ l, x ∈ m) : l.length ≤ m.length :=
  (hnd.subperm hsub).length_le

/-- Claim C6: with the collection's parent set to `p`, validation fails
with a circular-reference error when `p` is the collection itself or the
collection lies on `p`'s stored ancestor chain; when the chain instead
climbs cleanly to a root, validation fails with a max-depth error exactly
when the resulting chain depth `1 + |ancestors|` exceeds
`MAX_COLLECTION_DEPTH`, and otherwise the collection is saved.  A failure
returns the error without any state (nothing is saved). -/
theorem C6_collection_parent_validation (maxDepth : ℕ)
    (s : List CollectionRec) (c : CollectionRec) (p : ℕ) :
    (∀ l, UpSeg s p l c.pk → l.Nodup → c.pk ∉ l →
      setParent maxDepth s c (some p) = .error .circularReference) ∧
    (∀ l, UpPath s p l → l.Nodup → c.pk ∉ l →
      ((maxDepth < 1 + l.length →
        setParent maxDepth s c (some p) = .error .maxDepthExceeded) ∧
       (1 + l.length ≤ maxDepth →
        ∃ s2, setParent maxDepth s c (some p) = .ok s2))) := by
  constructor
  · intro l hseg hnd hnotin
    have hlen : l.length < s.length + 2 := by
      have := nodup_sub_length_le l (s.map (fun x => x.pk)) hnd
        (upSeg_mem_store s p l c.pk hseg)
      simp only [List.length_map] at this
      omega
    have hw := walkUp_circular s l p c.pk hseg hnotin (s.length + 2) [c.pk] 1
      (List.mem_cons_self _ _)
      (fun x hx hxv => hnotin (by rwa [List.mem_singleton.mp hxv] at hx))
      hnd hlen
    have hres : collectionClean maxDepth s ⟨c.pk, c.slug, some p⟩ =
        some CollectionErr.circularReference := by
      show (match walkUp s (s.length + 2) [c.pk] 1 (some p) with
            | .error err => some err
            | .ok depth => if maxDepth < depth
              then some CollectionErr.maxDepthExceeded else none) =
          some CollectionErr.circularReference
      rw [hw]
    unfold setParent
    rw [hres]
  · intro l hpath hnd hnotin
    have hlen : l.length < s.length + 2 := by
      have := nodup_sub_length_le l (s.map (fun x => x.pk)) hnd
        (upPath_mem_store s p l hpath)
      simp only [List.length_map] at this
      omega
    have hw := walkUp_complete s l p hpath (s.length + 2) [c.pk] 1
      (fun x hx hxv => hnotin (by rwa [List.mem_singleton.mp hxv] at hx))
      hnd hlen
    constructor
    · intro hdeep
      have hres : collectionClean maxDepth s ⟨c.pk, c.slug, some p⟩ =
          some CollectionErr.maxDepthExceeded := by
        show (match walkUp s (s.length + 2) [c.pk] 1 (some p) with
              | .error err => some err
              | .ok depth => if maxDepth < depth
                then some CollectionErr.maxDepthExceeded else none) =
            some CollectionErr.maxDepthExceeded
        rw [hw]
        show (if maxDepth < 1 + l.length then some CollectionErr.maxDepthExceeded
          else none) = some CollectionErr.maxDepthExceeded
        rw [if_pos hdeep]
      unfold setParent
      rw [hres]
    · intro hok
      have hres : collectionClean maxDepth s ⟨c.pk, c.slug, some p⟩ = none := by
        show (match walkUp s (s.length + 2) [c.pk] 1 (some p) with
              | .error err => some err
              | .ok depth => if maxDepth < depth
                then some CollectionErr.maxDepthExceeded else none) = none
        rw [hw]
        show (if maxDepth < 1 + l.length then some CollectionErr.maxDepthExceeded
          else none) = none
        rw [if_neg (not_lt.mpr hok)]
      refine ⟨if s.any (fun x => x.pk = c.pk)
        then s.map (fun x => if x.pk = c.pk then ⟨c.pk, c.slug, some p⟩ else x)
        else s ++ [⟨c.pk, c.slug, some p⟩], ?_⟩
      unfold setParent
      rw [hres]

def exRootSlug : String := "root"

def exChildSlug : String := "child"

def exRoot : CollectionRec := ⟨1, "root", none⟩

def exChild : CollectionRec := ⟨2, "child", none⟩

def exCols : List CollectionRec := [exRoot]

/-- Witness for C6: setting the child's parent to the stored root (chain
depth 2 ≤ 10) is saved. -/
theorem C6_collection_parent_validation_witness :
    ∃ s2, setParent 10 exCols exChild (some 1) = .ok s2 :=
  ((C6_collection_parent_validation 10 exCols exChild 1).2 [1]
    (UpPath.root exRoot (by simp [findCol, exCols, exRoot]) rfl)
    (by simp) (by simp [exChild]) ).2 (by norm_num)
